import Mathlib

/-!
Verification of `src/gui/nanogui/common.h` (ciNanoguiE).

The header defines an RGBA `Color` value type (a `Eigen::Vector4f` with
convenience constructors and a luminance-based `contrastingColor` helper),
the icon-classification predicates `nvgIsImageIcon` / `nvgIsFontIcon`,
a UTF-8 codepoint encoder `utf8`, and key/modifier integer constants.

Embedding conventions:
* C++ `float` channels are modelled as exact rationals `ℚ`; the decimal
  literals of the source become the corresponding rational literals.
* C++ `int` is modelled as `Int`; where the source relies on the 32-bit
  range, that range appears as an explicit hypothesis.
* `char` stores in `utf8` keep the low 8 bits of the stored value, so the
  byte sequence is modelled as a `List Nat` of byte values.
* The out-of-bounds behaviour of `std::array` indexing is modelled by a
  write operation `wr` returning `Option`: a write outside the array fails.
-/

namespace nanogui

/-- RGBA color value: the four components of the underlying
`Eigen::Vector4f` base (`x`, `y`, `z`, `w`). -/
structure Color where
  x : ℚ
  y : ℚ
  z : ℚ
  w : ℚ
deriving DecidableEq, Repr

/-- `Color(float r, float g, float b, float a)`: builds the underlying
`Vector4f` from the four channel values. -/
def Color.ofFloat4 (r g b a : ℚ) : Color := ⟨r, g, b, a⟩

/-- `Color(const Eigen::Vector3f &color, float alpha)`:
delegates to the four-float constructor. -/
def Color.ofVector3fAlpha (r g b alpha : ℚ) : Color :=
  Color.ofFloat4 r g b alpha

/-- `Color(const Eigen::Vector3i &color, int alpha)`:
casts the integer channels to float, divides by `255.f`, and divides the
integer alpha by `255.f`. -/
def Color.ofVector3iAlpha (r g b alpha : ℤ) : Color :=
  Color.ofVector3fAlpha ((r : ℚ) / 255) ((g : ℚ) / 255) ((b : ℚ) / 255)
    ((alpha : ℚ) / 255)

/-- `Color(const Eigen::Vector3f &color)`: alpha defaults to `1.0f`. -/
def Color.ofVector3f (r g b : ℚ) : Color :=
  Color.ofVector3fAlpha r g b 1

/-- `Color(const Eigen::Vector3i &color)`: integer channels cast to float
and divided by `255.f`, then the three-float constructor. -/
def Color.ofVector3i (r g b : ℤ) : Color :=
  Color.ofVector3f ((r : ℚ) / 255) ((g : ℚ) / 255) ((b : ℚ) / 255)

/-- `Color(const Eigen::Vector4i &color)`: all four integer channels cast
to float and divided by `255.f`. -/
def Color.ofVector4i (r g b a : ℤ) : Color :=
  Color.ofFloat4 ((r : ℚ) / 255) ((g : ℚ) / 255) ((b : ℚ) / 255)
    ((a : ℚ) / 255)

/-- `Color(float intensity, float alpha)`: the three channels equal the
intensity value. -/
def Color.ofIntensityF (intensity alpha : ℚ) : Color :=
  Color.ofVector3fAlpha intensity intensity intensity alpha

/-- `Color(int intensity, int alpha)`: delegates to the
`(Vector3i, int)` constructor with a constant vector. -/
def Color.ofIntensityI (intensity alpha : ℤ) : Color :=
  Color.ofVector3iAlpha intensity intensity intensity alpha

/-- `Color(int r, int g, int b, int a)`: delegates to the `Vector4i`
constructor. -/
def Color.ofInt4 (r g b a : ℤ) : Color :=
  Color.ofVector4i r g b a

/-- `Color()`: the default constructor delegates to `Color(0, 0, 0, 0)`
with integer arguments. -/
def Color.defaultColor : Color := Color.ofInt4 0 0 0 0

/-- Accessor `r()`: the red channel is component `x()` of the vector. -/
def Color.r (c : Color) : ℚ := c.x

/-- Accessor `g()`: the green channel is component `y()` of the vector. -/
def Color.g (c : Color) : ℚ := c.y

/-- Accessor `b()`: the blue channel is component `z()` of the vector. -/
def Color.b (c : Color) : ℚ := c.z

/-- Eigen `cwiseProduct`: componentwise product of two 4-vectors. -/
def Color.cwiseProduct (c d : Color) : Color :=
  ⟨c.x * d.x, c.y * d.y, c.z * d.z, c.w * d.w⟩

/-- Eigen `sum()`: the sum of the four components. -/
def Color.sum (c : Color) : ℚ := c.x + c.y + c.z + c.w

/-- `Color::contrastingColor()`: luminance is the componentwise product
with `Color(0.299f, 0.587f, 0.144f, 0.f)` summed; the result is white or
black with alpha `1.f` depending on `luminance < 0.5f`. -/
def Color.contrastingColor (c : Color) : Color :=
  let luminance := (c.cwiseProduct (Color.ofFloat4 0.299 0.587 0.144 0)).sum
  Color.ofIntensityF (if luminance < 0.5 then 1 else 0) 1

/-- `nvgIsImageIcon(int value)`: `value < 1024`. -/
def nvgIsImageIcon (value : Int) : Bool := decide (value < 1024)

/-- `nvgIsFontIcon(int value)`: `value >= 1024`. -/
def nvgIsFontIcon (value : Int) : Bool := decide (value ≥ 1024)

/-- Modifier constant `SHIFT_DOWN = 0x0008`. -/
def SHIFT_DOWN : Nat := 0x0008

/-- Modifier constant `ALT_DOWN = 0x0010`. -/
def ALT_DOWN : Nat := 0x0010

/-- Modifier constant `CTRL_DOWN = 0x0020`. -/
def CTRL_DOWN : Nat := 0x0020

/-- Modifier constant `META_DOWN = 0x0040`. -/
def META_DOWN : Nat := 0x0040

/-- Bitwise OR of a subset of the four modifier masks, the subset being
given by four Booleans. -/
def modMask (sh al ct me : Bool) : Nat :=
  (if sh then SHIFT_DOWN else 0) ||| (if al then ALT_DOWN else 0) |||
    (if ct then CTRL_DOWN else 0) ||| (if me then META_DOWN else 0)

/-- Store of an `int` expression into a `char` array slot: keeps the low
8 bits of the stored value (the byte actually held by the array). -/
def byte (v : Int) : Nat := (v % 256).toNat

/-- Write into a `std::array<char, 8>` modelled as a length-8 list of
byte values; an out-of-bounds write is undefined behaviour and is
modelled as failure. -/
def wr (s : List Nat) (i : Nat) (v : Nat) : Option (List Nat) :=
  if i < s.length then some (s.set i v) else none

/-- The sequence length `n` chosen by the `if` cascade at the top of
`utf8`; `n` stays at its initial value `0` when no branch fires. -/
def utf8Len (c : Int) : Nat :=
  if c < 0x80 then 1
  else if c < 0x800 then 2
  else if c < 0x10000 then 3
  else if c < 0x200000 then 4
  else if c < 0x4000000 then 5
  else if c ≤ 0x7fffffff then 6
  else 0

/-- The continuation-byte value `0x80 | (c & 0x3f)` stored by the cases
of the `switch` in `utf8`. -/
def contByte (c : Int) : Nat := byte (Int.lor 0x80 (Int.land c 0x3f))

/-- `case 1:` of the `switch` in `utf8`: `seq[0] = c`. -/
def utf8Case1 (c : Int) (s : List Nat) : Option (List Nat) :=
  wr s 0 (byte c)

/-- `case 2:` of the `switch`: `seq[1] = 0x80 | (c & 0x3f)`, then
`c = c >> 6`, `c |= 0xc0`, falling through to `case 1`. -/
def utf8Case2 (c : Int) (s : List Nat) : Option (List Nat) :=
  (wr s 1 (contByte c)).bind fun s1 =>
    utf8Case1 (Int.lor (c >>> (6 : Nat)) 0xc0) s1

/-- `case 3:` of the `switch`: `seq[2] = 0x80 | (c & 0x3f)`, then
`c = c >> 6`, `c |= 0x800`, falling through to `case 2`. -/
def utf8Case3 (c : Int) (s : List Nat) : Option (List Nat) :=
  (wr s 2 (contByte c)).bind fun s1 =>
    utf8Case2 (Int.lor (c >>> (6 : Nat)) 0x800) s1

/-- `case 4:` of the `switch`: `seq[3] = 0x80 | (c & 0x3f)`, then
`c = c >> 6`, `c |= 0x10000`, falling through to `case 3`. -/
def utf8Case4 (c : Int) (s : List Nat) : Option (List Nat) :=
  (wr s 3 (contByte c)).bind fun s1 =>
    utf8Case3 (Int.lor (c >>> (6 : Nat)) 0x10000) s1

/-- `case 5:` of the `switch`: `seq[4] = 0x80 | (c & 0x3f)`, then
`c = c >> 6`, `c |= 0x200000`, falling through to `case 4`. -/
def utf8Case5 (c : Int) (s : List Nat) : Option (List Nat) :=
  (wr s 4 (contByte c)).bind fun s1 =>
    utf8Case4 (Int.lor (c >>> (6 : Nat)) 0x200000) s1

/-- `case 6:` of the `switch`: `seq[5] = 0x80 | (c & 0x3f)`, then
`c = c >> 6`, `c |= 0x4000000`, falling through to `case 5`. -/
def utf8Case6 (c : Int) (s : List Nat) : Option (List Nat) :=
  (wr s 5 (contByte c)).bind fun s1 =>
    utf8Case5 (Int.lor (c >>> (6 : Nat)) 0x4000000) s1

/-- The `switch (n)` of `utf8` with its fall-through chain; a value of
`n` outside `1..6` matches no case and stores nothing. -/
def utf8Cases (n : Nat) (c : Int) (s : List Nat) : Option (List Nat) :=
  match n with
  | 6 => utf8Case6 c s
  | 5 => utf8Case5 c s
  | 4 => utf8Case4 c s
  | 3 => utf8Case3 c s
  | 2 => utf8Case2 c s
  | 1 => utf8Case1 c s
  | _ => some s

/-- `utf8(int c)` run on an arbitrary initial array state: the local
`std::array<char, 8> seq` is default-initialized, so its contents before
any store are indeterminate; `init` ranges over those possible initial
byte contents. The function chooses `n`, stores the NUL terminator at
index `n`, then runs the `switch`. -/
def utf8Init (init : List Nat) (c : Int) : Option (List Nat) :=
  (wr init (utf8Len c) 0).bind fun s =>
    utf8Cases (utf8Len c) c s

/-- `utf8(int c)`: chooses `n`, stores the NUL terminator at index `n`,
then runs the `switch`; the result is the final byte array. This fixes
one representative initial array state (all zeros); the bytes the code
actually writes do not depend on that choice, while the unwritten tail
bytes are the indeterminate initial contents, covered by `utf8Init`. -/
def utf8 (c : Int) : Option (List Nat) :=
  (wr (List.replicate 8 0) (utf8Len c) 0).bind fun s =>
    utf8Cases (utf8Len c) c s

/-- Modelled from the spec claim: the standard UTF-8 encoding of a
codepoint below `0x110000` — lead byte prefixes `0xxxxxxx`, `110xxxxx`,
`1110xxxx`, `11110xxx` and continuation bytes `10xxxxxx`. -/
def utf8Spec (c : Nat) : List Nat :=
  if c < 0x80 then [c]
  else if c < 0x800 then [0xC0 + c / 64, 0x80 + c % 64]
  else if c < 0x10000 then
    [0xE0 + c / 4096, 0x80 + c / 64 % 64, 0x80 + c % 64]
  else
    [0xF0 + c / 262144, 0x80 + c / 4096 % 64, 0x80 + c / 64 % 64,
      0x80 + c % 64]

/-- The sequence length the spec claim assigns to a codepoint below
`0x110000`. -/
def utf8SpecLen (c : Nat) : Nat :=
  if c < 0x80 then 1
  else if c < 0x800 then 2
  else if c < 0x10000 then 3
  else 4

end nanogui

namespace nanogui

/-- Evaluation lemma: `contrastingColor` written as a single `if` on the
luminance computed by the code. -/
theorem Color.contrasting_eval (c : Color) :
    c.contrastingColor =
      if c.x * 0.299 + c.y * 0.587 + c.z * 0.144 + c.w * 0 < 0.5
      then Color.ofFloat4 1 1 1 1 else Color.ofFloat4 0 0 0 1 := by
  simp only [Color.contrastingColor, Color.cwiseProduct, Color.sum,
    Color.ofFloat4, Color.ofIntensityF, Color.ofVector3fAlpha]
  split_ifs <;> rfl

/-- C2 counterexample: it is not the case that `contrastingColor` decides
between white and black by the luminance `0.299*r + 0.587*g + 0.114*b`;
the color `(0, 0, 4, 0)` has claimed luminance `0.456 < 0.5` yet the code
returns opaque black, because the code weighs the blue channel by `0.144`,
not `0.114`. -/
theorem contrastingColor_luminance_claim_false :
    ¬ (∀ col : Color, col.contrastingColor =
        if 0.299 * col.r + 0.587 * col.g + 0.114 * col.b < 0.5
        then Color.ofFloat4 1 1 1 1 else Color.ofFloat4 0 0 0 1) := by
  intro h
  have h4 := h (Color.ofFloat4 0 0 4 0)
  rw [Color.contrasting_eval] at h4
  norm_num [Color.ofFloat4, Color.r, Color.g, Color.b, Color.mk.injEq] at h4

/-- C2 (amended): `contrastingColor` returns opaque white when the
luminance `0.299*r + 0.587*g + 0.144*b` is below `0.5` and opaque black
otherwise; the alpha channel does not contribute (its weight is `0`). -/
theorem contrastingColor_luminance (col : Color) :
    col.contrastingColor =
      if 0.299 * col.r + 0.587 * col.g + 0.144 * col.b < 0.5
      then Color.ofFloat4 1 1 1 1 else Color.ofFloat4 0 0 0 1 := by
  rw [Color.contrasting_eval]
  have hiff : (col.x * 0.299 + col.y * 0.587 + col.z * 0.144 + col.w * 0 < 0.5)
      ↔ (0.299 * col.r + 0.587 * col.g + 0.144 * col.b < 0.5) := by
    simp only [Color.r, Color.g, Color.b]
    constructor <;> intro h <;> nlinarith
  by_cases h : 0.299 * col.r + 0.587 * col.g + 0.144 * col.b < 0.5
  · rw [if_pos (hiff.mpr h), if_pos h]
  · rw [if_neg (fun hc => h (hiff.mp hc)), if_neg h]

/-- C5: each integer-based convenience constructor equals the four-float
constructor applied to the integer channels divided by 255 (with alpha `1`
for the alpha-less `Vector3i` constructor, whose float delegate supplies
`1.0f`). -/
theorem intConstructors_scale (r g b a i al : ℤ) :
    Color.ofInt4 r g b a =
        Color.ofFloat4 ((r : ℚ) / 255) ((g : ℚ) / 255) ((b : ℚ) / 255)
          ((a : ℚ) / 255) ∧
      Color.ofVector3iAlpha r g b al =
        Color.ofFloat4 ((r : ℚ) / 255) ((g : ℚ) / 255) ((b : ℚ) / 255)
          ((al : ℚ) / 255) ∧
      Color.ofVector3i r g b =
        Color.ofFloat4 ((r : ℚ) / 255) ((g : ℚ) / 255) ((b : ℚ) / 255) 1 ∧
      Color.ofVector4i r g b a =
        Color.ofFloat4 ((r : ℚ) / 255) ((g : ℚ) / 255) ((b : ℚ) / 255)
          ((a : ℚ) / 255) ∧
      Color.ofIntensityI i al =
        Color.ofFloat4 ((i : ℚ) / 255) ((i : ℚ) / 255) ((i : ℚ) / 255)
          ((al : ℚ) / 255) :=
  ⟨rfl, rfl, rfl, rfl, rfl⟩

/-- C6: the accessors `r()`, `g()`, `b()` return exactly the first, second
and third component of the underlying 4-vector. -/
theorem accessors_are_components (col : Color) :
    col.r = col.x ∧ col.g = col.y ∧ col.b = col.z :=
  ⟨rfl, rfl, rfl⟩

/-- C7: the four modifier codes are pairwise-distinct single-bit masks;
a bitwise-OR of any subset of them can be decoded by AND with each mask,
and the encoding of subsets is injective. -/
theorem modifier_masks_single_bit :
    (SHIFT_DOWN = 2 ^ 3 ∧ ALT_DOWN = 2 ^ 4 ∧ CTRL_DOWN = 2 ^ 5 ∧
        META_DOWN = 2 ^ 6) ∧
      (∀ sh al ct me : Bool,
        modMask sh al ct me &&& SHIFT_DOWN = (if sh then SHIFT_DOWN else 0) ∧
          modMask sh al ct me &&& ALT_DOWN = (if al then ALT_DOWN else 0) ∧
          modMask sh al ct me &&& CTRL_DOWN = (if ct then CTRL_DOWN else 0) ∧
          modMask sh al ct me &&& META_DOWN =
            (if me then META_DOWN else 0)) ∧
      (∀ sh al ct me sh' al' ct' me' : Bool,
        modMask sh al ct me = modMask sh' al' ct' me' ↔
          (sh = sh' ∧ al = al' ∧ ct = ct' ∧ me = me')) := by
  refine ⟨by decide, by decide, by decide⟩

/-- C8: `nvgIsFontIcon` is the Boolean negation of `nvgIsImageIcon` on
every integer, and `1024` itself is classified as a font icon. -/
theorem icon_predicates_partition (v : Int) :
    nvgIsFontIcon v = !nvgIsImageIcon v ∧
      nvgIsFontIcon 1024 = true ∧ nvgIsImageIcon 1024 = false := by
  refine ⟨?_, by decide, by decide⟩
  by_cases h : v < 1024
  · simp [nvgIsFontIcon, nvgIsImageIcon, h, not_le.mpr h]
  · simp [nvgIsFontIcon, nvgIsImageIcon, h, not_lt.mp h]

/-- Evaluation helper: the contrasting color of opaque white is opaque
black (its luminance `0.299 + 0.587 + 0.144 = 1.03` is at least `0.5`). -/
theorem Color.contrasting_white :
    (Color.ofFloat4 1 1 1 1).contrastingColor = Color.ofFloat4 0 0 0 1 := by
  rw [Color.contrasting_eval]
  norm_num [Color.ofFloat4]

/-- Evaluation helper: the contrasting color of opaque black is opaque
white (its luminance `0` is below `0.5`). -/
theorem Color.contrasting_black :
    (Color.ofFloat4 0 0 0 1).contrastingColor = Color.ofFloat4 1 1 1 1 := by
  rw [Color.contrasting_eval]
  norm_num [Color.ofFloat4]

/-- C9: the result of `contrastingColor` always has alpha `1`, its three
color channels are equal to each other and are all `0` or all `1`, and
applying `contrastingColor` twice more to a result returns that result
(period-2 behaviour on the image). -/
theorem contrastingColor_image_invariant (col : Color) :
    (col.contrastingColor).w = 1 ∧
      (col.contrastingColor).x = (col.contrastingColor).y ∧
      (col.contrastingColor).y = (col.contrastingColor).z ∧
      ((col.contrastingColor).x = 0 ∨ (col.contrastingColor).x = 1) ∧
      col.contrastingColor.contrastingColor.contrastingColor =
        col.contrastingColor := by
  rw [Color.contrasting_eval col]
  by_cases h :
      col.x * 0.299 + col.y * 0.587 + col.z * 0.144 + col.w * 0 < 0.5
  · rw [if_pos h]
    exact ⟨rfl, rfl, rfl, Or.inr rfl, by
      rw [Color.contrasting_white, Color.contrasting_black]⟩
  · rw [if_neg h]
    exact ⟨rfl, rfl, rfl, Or.inl rfl, by
      rw [Color.contrasting_black, Color.contrasting_white]⟩

/-- C10: the default constructor produces the fully transparent black
color: all four channels are `0`. -/
theorem defaultColor_is_zero :
    Color.defaultColor.x = 0 ∧ Color.defaultColor.y = 0 ∧
      Color.defaultColor.z = 0 ∧ Color.defaultColor.w = 0 := by
  refine ⟨?_, ?_, ?_, ?_⟩ <;> norm_num [Color.defaultColor, Color.ofInt4,
    Color.ofVector4i, Color.ofFloat4]

end nanogui

namespace nanogui

/-- Disjoint bitwise OR is addition: a value below `2 ^ k` ORed with a
multiple of `2 ^ k`. -/
theorem nat_lor_eq_add (x k m : Nat) (h : x < 2 ^ k) :
    x ||| 2 ^ k * m = x + 2 ^ k * m := by
  apply Nat.eq_of_testBit_eq
  intro j
  rw [Nat.testBit_lor, Nat.add_comm x, Nat.testBit_mul_pow_two_add _ h,
    Nat.testBit_mul_pow_two]
  by_cases hj : j < k
  · simp [hj, Nat.not_le_of_lt hj]
  · have hx : x.testBit j = false :=
      Nat.testBit_lt_two_pow
        (lt_of_lt_of_le h (Nat.pow_le_pow_right (by norm_num)
          (Nat.le_of_not_lt hj)))
    simp [hj, hx, Nat.le_of_not_lt hj]

/-- ORing `0x80` onto a value below `0x80`. -/
theorem lor_lead80 {x : Nat} (h : x < 128) : 128 ||| x = 128 + x := by
  have h2 : x ||| 2 ^ 7 * 1 = x + 2 ^ 7 * 1 :=
    nat_lor_eq_add x 7 1 (lt_of_lt_of_le h (by norm_num))
  norm_num at h2
  rw [Nat.lor_comm, h2, Nat.add_comm]

/-- ORing the two-byte lead marker `0xc0` onto a value below `0x40`. -/
theorem lor_c0 {x : Nat} (h : x < 64) : x ||| 192 = x + 192 := by
  have h2 : x ||| 2 ^ 6 * 3 = x + 2 ^ 6 * 3 :=
    nat_lor_eq_add x 6 3 (lt_of_lt_of_le h (by norm_num))
  norm_num at h2
  exact h2

/-- ORing the three-byte marker `0x800` onto a value below `0x800`. -/
theorem lor_800 {x : Nat} (h : x < 2048) : x ||| 2048 = x + 2048 := by
  have h2 : x ||| 2 ^ 11 * 1 = x + 2 ^ 11 * 1 :=
    nat_lor_eq_add x 11 1 (lt_of_lt_of_le h (by norm_num))
  norm_num at h2
  exact h2

/-- ORing the four-byte marker `0x10000` onto a value below `0x10000`. -/
theorem lor_10000 {x : Nat} (h : x < 65536) : x ||| 65536 = x + 65536 := by
  have h2 : x ||| 2 ^ 16 * 1 = x + 2 ^ 16 * 1 :=
    nat_lor_eq_add x 16 1 (lt_of_lt_of_le h (by norm_num))
  norm_num at h2
  exact h2

/-- A `char` store of a value below 256 keeps that value. -/
theorem byte_coe {a : Nat} (h : a < 256) : byte ↑a = a := by
  simp only [byte]
  omega

/-- The continuation byte stored for a nonnegative `c` is
`0x80 + c % 64`. -/
theorem contByte_coe (a : Nat) : contByte ↑a = 0x80 + a % 64 := by
  have e1 : contByte ↑a = byte ((128 ||| (a &&& 63) : Nat) : Int) := rfl
  have e2 : a &&& 63 = a % 64 := by
    have h := Nat.and_pow_two_sub_one_eq_mod a 6
    norm_num at h
    exact h
  rw [e1, e2, lor_lead80 (by omega)]
  exact byte_coe (by omega)

/-- `c >> 6` on a nonnegative `c` is division by 64. -/
theorem shr6_coe (a : Nat) :
    (↑a : Int) >>> (6 : Nat) = ((a / 64 : Nat) : Int) := by
  rw [Int.natCast_shiftRight]
  norm_num [Nat.shiftRight_eq_div_pow]

/-- Evaluation of `utf8` on the one-byte range `0 ≤ c < 0x80`. -/
theorem utf8_eval1 {c : Int} (h0 : 0 ≤ c) (h1 : c < 0x80) :
    utf8 c = some [c.toNat, 0, 0, 0, 0, 0, 0, 0] := by
  have hlen : utf8Len c = 1 := by
    simp only [utf8Len]
    rw [if_pos h1]
  simp only [utf8, hlen]
  show utf8Case1 c [0, 0, 0, 0, 0, 0, 0, 0] = _
  simp only [utf8Case1]
  have hb : byte c = c.toNat := by simp only [byte]; omega
  rw [hb]
  rfl

/-- Evaluation of `utf8` on the two-byte range `0x80 ≤ c < 0x800`. -/
theorem utf8_eval2 {c : Int} (h0 : 0x80 ≤ c) (h1 : c < 0x800) :
    utf8 c = some [0xC0 + c.toNat / 64, 0x80 + c.toNat % 64,
      0, 0, 0, 0, 0, 0] := by
  obtain ⟨a, rfl⟩ : ∃ a : Nat, c = ↑a := ⟨c.toNat, by omega⟩
  have hlen : utf8Len ↑a = 2 := by
    simp only [utf8Len]
    rw [if_neg (by omega), if_pos (by omega)]
  simp only [utf8, hlen]
  show utf8Case2 ↑a [0, 0, 0, 0, 0, 0, 0, 0] = _
  simp only [utf8Case2]
  rw [contByte_coe]
  show utf8Case1 (Int.lor ((↑a : Int) >>> (6 : Nat)) 0xc0)
    [0, 0x80 + a % 64, 0, 0, 0, 0, 0, 0] = _
  have harg : Int.lor ((↑a : Int) >>> (6 : Nat)) 0xc0 =
      ((0xc0 + a / 64 : Nat) : Int) := by
    rw [shr6_coe]
    have e : Int.lor ((a / 64 : Nat) : Int) (0xc0 : Int) =
        (((a / 64) ||| 192 : Nat) : Int) := rfl
    rw [e, lor_c0 (by omega)]
    exact congrArg _ (by omega)
  rw [harg]
  simp only [utf8Case1]
  rw [byte_coe (by omega)]
  rfl

/-- Evaluation of `utf8` on the three-byte range `0x800 ≤ c < 0x10000`. -/
theorem utf8_eval3 {c : Int} (h0 : 0x800 ≤ c) (h1 : c < 0x10000) :
    utf8 c = some [0xE0 + c.toNat / 4096, 0x80 + c.toNat / 64 % 64,
      0x80 + c.toNat % 64, 0, 0, 0, 0, 0] := by
  obtain ⟨a, rfl⟩ : ∃ a : Nat, c = ↑a := ⟨c.toNat, by omega⟩
  have hlen : utf8Len ↑a = 3 := by
    simp only [utf8Len]
    rw [if_neg (by omega), if_neg (by omega), if_pos (by omega)]
  simp only [utf8, hlen]
  show utf8Case3 ↑a [0, 0, 0, 0, 0, 0, 0, 0] = _
  simp only [utf8Case3]
  rw [contByte_coe]
  show utf8Case2 (Int.lor ((↑a : Int) >>> (6 : Nat)) 0x800)
    [0, 0, 0x80 + a % 64, 0, 0, 0, 0, 0] = _
  have harg1 : Int.lor ((↑a : Int) >>> (6 : Nat)) 0x800 =
      ((0x800 + a / 64 : Nat) : Int) := by
    rw [shr6_coe]
    have e : Int.lor ((a / 64 : Nat) : Int) (0x800 : Int) =
        (((a / 64) ||| 2048 : Nat) : Int) := rfl
    rw [e, lor_800 (by omega)]
    exact congrArg _ (by omega)
  rw [harg1]
  simp only [utf8Case2]
  rw [contByte_coe]
  rw [show 0x80 + (0x800 + a / 64) % 64 = 0x80 + a / 64 % 64 from by omega]
  show utf8Case1
    (Int.lor ((↑(0x800 + a / 64 : Nat) : Int) >>> (6 : Nat)) 0xc0)
    [0, 0x80 + a / 64 % 64, 0x80 + a % 64, 0, 0, 0, 0, 0] = _
  have harg2 :
      Int.lor ((↑(0x800 + a / 64 : Nat) : Int) >>> (6 : Nat)) 0xc0 =
        ((0xE0 + a / 4096 : Nat) : Int) := by
    rw [shr6_coe]
    have e : Int.lor (((0x800 + a / 64) / 64 : Nat) : Int) (0xc0 : Int) =
        ((((0x800 + a / 64) / 64) ||| 192 : Nat) : Int) := rfl
    rw [e, lor_c0 (by omega)]
    exact congrArg _ (by omega)
  rw [harg2]
  simp only [utf8Case1]
  rw [byte_coe (by omega)]
  rfl

/-- Evaluation of `utf8` on the four-byte range `0x10000 ≤ c < 0x200000`. -/
theorem utf8_eval4 {c : Int} (h0 : 0x10000 ≤ c) (h1 : c < 0x200000) :
    utf8 c = some [0xF0 + c.toNat / 262144, 0x80 + c.toNat / 4096 % 64,
      0x80 + c.toNat / 64 % 64, 0x80 + c.toNat % 64, 0, 0, 0, 0] := by
  obtain ⟨a, rfl⟩ : ∃ a : Nat, c = ↑a := ⟨c.toNat, by omega⟩
  have hlen : utf8Len ↑a = 4 := by
    simp only [utf8Len]
    rw [if_neg (by omega), if_neg (by omega), if_neg (by omega),
      if_pos (by omega)]
  simp only [utf8, hlen]
  show utf8Case4 ↑a [0, 0, 0, 0, 0, 0, 0, 0] = _
  simp only [utf8Case4]
  rw [contByte_coe]
  show utf8Case3 (Int.lor ((↑a : Int) >>> (6 : Nat)) 0x10000)
    [0, 0, 0, 0x80 + a % 64, 0, 0, 0, 0] = _
  have harg1 : Int.lor ((↑a : Int) >>> (6 : Nat)) 0x10000 =
      ((0x10000 + a / 64 : Nat) : Int) := by
    rw [shr6_coe]
    have e : Int.lor ((a / 64 : Nat) : Int) (0x10000 : Int) =
        (((a / 64) ||| 65536 : Nat) : Int) := rfl
    rw [e, lor_10000 (by omega)]
    exact congrArg _ (by omega)
  rw [harg1]
  simp only [utf8Case3]
  rw [contByte_coe]
  rw [show 0x80 + (0x10000 + a / 64) % 64 = 0x80 + a / 64 % 64 from by omega]
  show utf8Case2
    (Int.lor ((↑(0x10000 + a / 64 : Nat) : Int) >>> (6 : Nat)) 0x800)
    [0, 0, 0x80 + a / 64 % 64, 0x80 + a % 64, 0, 0, 0, 0] = _
  have harg2 :
      Int.lor ((↑(0x10000 + a / 64 : Nat) : Int) >>> (6 : Nat)) 0x800 =
        ((0xC00 + a / 4096 : Nat) : Int) := by
    rw [shr6_coe]
    have e : Int.lor (((0x10000 + a / 64) / 64 : Nat) : Int) (0x800 : Int) =
        ((((0x10000 + a / 64) / 64) ||| 2048 : Nat) : Int) := rfl
    rw [e, lor_800 (by omega)]
    exact congrArg _ (by omega)
  rw [harg2]
  simp only [utf8Case2]
  rw [contByte_coe]
  rw [show 0x80 + (0xC00 + a / 4096) % 64 = 0x80 + a / 4096 % 64 from by omega]
  show utf8Case1
    (Int.lor ((↑(0xC00 + a / 4096 : Nat) : Int) >>> (6 : Nat)) 0xc0)
    [0, 0x80 + a / 4096 % 64, 0x80 + a / 64 % 64, 0x80 + a % 64, 0, 0, 0, 0] = _
  have harg3 :
      Int.lor ((↑(0xC00 + a / 4096 : Nat) : Int) >>> (6 : Nat)) 0xc0 =
        ((0xF0 + a / 262144 : Nat) : Int) := by
    rw [shr6_coe]
    have e : Int.lor (((0xC00 + a / 4096) / 64 : Nat) : Int) (0xc0 : Int) =
        ((((0xC00 + a / 4096) / 64) ||| 192 : Nat) : Int) := rfl
    rw [e, lor_c0 (by omega)]
    exact congrArg _ (by omega)
  rw [harg3]
  simp only [utf8Case1]
  rw [byte_coe (by omega)]
  rfl

/-- `case 1` succeeds on any length-8 array. -/
theorem utf8Case1_isSome (c : Int) (s : List Nat) (h : s.length = 8) :
    (utf8Case1 c s).isSome = true := by
  simp [utf8Case1, wr, h]

/-- `case 2` succeeds on any length-8 array. -/
theorem utf8Case2_isSome (c : Int) (s : List Nat) (h : s.length = 8) :
    (utf8Case2 c s).isSome = true := by
  have hw : wr s 1 (contByte c) = some (s.set 1 (contByte c)) := by
    simp only [wr, h]
    rw [if_pos (by omega)]
  simp only [utf8Case2, hw, Option.some_bind]
  exact utf8Case1_isSome _ _ (by simp [h])

/-- `case 3` succeeds on any length-8 array. -/
theorem utf8Case3_isSome (c : Int) (s : List Nat) (h : s.length = 8) :
    (utf8Case3 c s).isSome = true := by
  have hw : wr s 2 (contByte c) = some (s.set 2 (contByte c)) := by
    simp only [wr, h]
    rw [if_pos (by omega)]
  simp only [utf8Case3, hw, Option.some_bind]
  exact utf8Case2_isSome _ _ (by simp [h])

/-- `case 4` succeeds on any length-8 array. -/
theorem utf8Case4_isSome (c : Int) (s : List Nat) (h : s.length = 8) :
    (utf8Case4 c s).isSome = true := by
  have hw : wr s 3 (contByte c) = some (s.set 3 (contByte c)) := by
    simp only [wr, h]
    rw [if_pos (by omega)]
  simp only [utf8Case4, hw, Option.some_bind]
  exact utf8Case3_isSome _ _ (by simp [h])

/-- `case 5` succeeds on any length-8 array. -/
theorem utf8Case5_isSome (c : Int) (s : List Nat) (h : s.length = 8) :
    (utf8Case5 c s).isSome = true := by
  have hw : wr s 4 (contByte c) = some (s.set 4 (contByte c)) := by
    simp only [wr, h]
    rw [if_pos (by omega)]
  simp only [utf8Case5, hw, Option.some_bind]
  exact utf8Case4_isSome _ _ (by simp [h])

/-- `case 6` succeeds on any length-8 array. -/
theorem utf8Case6_isSome (c : Int) (s : List Nat) (h : s.length = 8) :
    (utf8Case6 c s).isSome = true := by
  have hw : wr s 5 (contByte c) = some (s.set 5 (contByte c)) := by
    simp only [wr, h]
    rw [if_pos (by omega)]
  simp only [utf8Case6, hw, Option.some_bind]
  exact utf8Case5_isSome _ _ (by simp [h])

/-- C3: on every 32-bit signed input, `utf8` assigns a length `n` with
`1 ≤ n ≤ 6` and performs every array write inside the bounds of the
8-byte array (the `Option`-modelled computation succeeds). -/
theorem utf8_total (c : Int) (h1 : -2147483648 ≤ c) (h2 : c < 2147483648) :
    (1 ≤ utf8Len c ∧ utf8Len c ≤ 6) ∧ (utf8 c).isSome = true := by
  have hlen : 1 ≤ utf8Len c ∧ utf8Len c ≤ 6 := by
    simp only [utf8Len]
    split_ifs <;> omega
  obtain ⟨hl1, hl6⟩ := hlen
  refine ⟨⟨hl1, hl6⟩, ?_⟩
  simp only [utf8]
  have hw : wr (List.replicate 8 0) (utf8Len c) 0 =
      some ((List.replicate 8 0).set (utf8Len c) 0) := by
    simp only [wr, List.length_replicate]
    rw [if_pos (by omega)]
  rw [hw]
  simp only [Option.some_bind]
  have hcase : utf8Len c = 1 ∨ utf8Len c = 2 ∨ utf8Len c = 3 ∨
      utf8Len c = 4 ∨ utf8Len c = 5 ∨ utf8Len c = 6 := by omega
  rcases hcase with h | h | h | h | h | h <;> rw [h]
  · exact utf8Case1_isSome _ _ (by simp)
  · exact utf8Case2_isSome _ _ (by simp)
  · exact utf8Case3_isSome _ _ (by simp)
  · exact utf8Case4_isSome _ _ (by simp)
  · exact utf8Case5_isSome _ _ (by simp)
  · exact utf8Case6_isSome _ _ (by simp)

/-- C3 witness: the int32 value `-5` (a negative input) satisfies the
hypotheses and the conclusion. -/
theorem utf8_total_witness :
    (-2147483648 ≤ (-5 : Int) ∧ (-5 : Int) < 2147483648) ∧
      ((1 ≤ utf8Len (-5) ∧ utf8Len (-5) ≤ 6) ∧
        (utf8 (-5)).isSome = true) :=
  ⟨⟨by norm_num, by norm_num⟩, utf8_total (-5) (by norm_num) (by norm_num)⟩

/-- C1: for every codepoint `0 ≤ c ≤ 0x10FFFF`, `utf8 c` succeeds; its
first `n` bytes (with `n` as the claim assigns it) are the standard UTF-8
encoding of `c`, index `n` holds a NUL byte, and every byte after the
lead byte is a continuation byte in `0x80..0xBF`. -/
theorem utf8_encodes_standard (c : Int) (h0 : 0 ≤ c) (h1 : c ≤ 0x10FFFF) :
    ∃ l : List Nat, utf8 c = some l ∧
      utf8Len c = utf8SpecLen c.toNat ∧
      l.take (utf8Len c) = utf8Spec c.toNat ∧
      l.get? (utf8Len c) = some 0 ∧
      ∀ i : Nat, 1 ≤ i → i < utf8Len c →
        ∃ b, l.get? i = some b ∧ 0x80 ≤ b ∧ b ≤ 0xBF := by
  by_cases hc1 : c < 0x80
  · have hlen : utf8Len c = 1 := by
      simp only [utf8Len]
      rw [if_pos hc1]
    have hslen : utf8SpecLen c.toNat = 1 := by
      simp only [utf8SpecLen]
      rw [if_pos (by omega)]
    refine ⟨[c.toNat, 0, 0, 0, 0, 0, 0, 0], utf8_eval1 h0 hc1,
      ?_, ?_, ?_, ?_⟩
    · rw [hlen, hslen]
    · rw [hlen]
      simp only [utf8Spec]
      rw [if_pos (by omega)]
      rfl
    · rw [hlen]
      rfl
    · intro i hi1 hi2
      rw [hlen] at hi2
      omega
  · by_cases hc2 : c < 0x800
    · have hlen : utf8Len c = 2 := by
        simp only [utf8Len]
        rw [if_neg hc1, if_pos hc2]
      have hslen : utf8SpecLen c.toNat = 2 := by
        simp only [utf8SpecLen]
        rw [if_neg (by omega), if_pos (by omega)]
      refine ⟨[0xC0 + c.toNat / 64, 0x80 + c.toNat % 64, 0, 0, 0, 0, 0, 0],
        utf8_eval2 (by omega) hc2, ?_, ?_, ?_, ?_⟩
      · rw [hlen, hslen]
      · rw [hlen]
        simp only [utf8Spec]
        rw [if_neg (by omega), if_pos (by omega)]
        rfl
      · rw [hlen]
        rfl
      · intro i hi1 hi2
        rw [hlen] at hi2
        have hi : i = 1 := by omega
        subst hi
        exact ⟨0x80 + c.toNat % 64, rfl, by omega, by omega⟩
    · by_cases hc3 : c < 0x10000
      · have hlen : utf8Len c = 3 := by
          simp only [utf8Len]
          rw [if_neg hc1, if_neg hc2, if_pos hc3]
        have hslen : utf8SpecLen c.toNat = 3 := by
          simp only [utf8SpecLen]
          rw [if_neg (by omega), if_neg (by omega), if_pos (by omega)]
        refine ⟨[0xE0 + c.toNat / 4096, 0x80 + c.toNat / 64 % 64,
          0x80 + c.toNat % 64, 0, 0, 0, 0, 0],
          utf8_eval3 (by omega) hc3, ?_, ?_, ?_, ?_⟩
        · rw [hlen, hslen]
        · rw [hlen]
          simp only [utf8Spec]
          rw [if_neg (by omega), if_neg (by omega), if_pos (by omega)]
          rfl
        · rw [hlen]
          rfl
        · intro i hi1 hi2
          rw [hlen] at hi2
          interval_cases i
          · exact ⟨0x80 + c.toNat / 64 % 64, rfl, by omega, by omega⟩
          · exact ⟨0x80 + c.toNat % 64, rfl, by omega, by omega⟩
      · have hlen : utf8Len c = 4 := by
          simp only [utf8Len]
          rw [if_neg hc1, if_neg hc2, if_neg hc3, if_pos (by omega)]
        have hslen : utf8SpecLen c.toNat = 4 := by
          simp only [utf8SpecLen]
          rw [if_neg (by omega), if_neg (by omega), if_neg (by omega)]
        refine ⟨[0xF0 + c.toNat / 262144, 0x80 + c.toNat / 4096 % 64,
          0x80 + c.toNat / 64 % 64, 0x80 + c.toNat % 64, 0, 0, 0, 0],
          utf8_eval4 (by omega) (by omega), ?_, ?_, ?_, ?_⟩
        · rw [hlen, hslen]
        · rw [hlen]
          simp only [utf8Spec]
          rw [if_neg (by omega), if_neg (by omega), if_neg (by omega)]
          rfl
        · rw [hlen]
          rfl
        · intro i hi1 hi2
          rw [hlen] at hi2
          interval_cases i
          · exact ⟨0x80 + c.toNat / 4096 % 64, rfl, by omega, by omega⟩
          · exact ⟨0x80 + c.toNat / 64 % 64, rfl, by omega, by omega⟩
          · exact ⟨0x80 + c.toNat % 64, rfl, by omega, by omega⟩

/-- C1 witness: the euro sign `U+20AC` satisfies the hypotheses and the
conclusion. -/
theorem utf8_encodes_standard_witness :
    (0 ≤ (0x20AC : Int) ∧ (0x20AC : Int) ≤ 0x10FFFF) ∧
      (∃ l : List Nat, utf8 0x20AC = some l ∧
        utf8Len 0x20AC = utf8SpecLen (0x20AC : Int).toNat ∧
        l.take (utf8Len 0x20AC) = utf8Spec (0x20AC : Int).toNat ∧
        l.get? (utf8Len 0x20AC) = some 0 ∧
        ∀ i : Nat, 1 ≤ i → i < utf8Len 0x20AC →
          ∃ b, l.get? i = some b ∧ 0x80 ≤ b ∧ b ≤ 0xBF) :=
  ⟨⟨by norm_num, by norm_num⟩,
    utf8_encodes_standard 0x20AC (by norm_num) (by norm_num)⟩

/-- `case 1` on two length-8 arrays: it writes index 0 with a value
depending only on `c` and leaves every other index as it found it. -/
theorem utf8Case1_agree (c : Int) (s s' : List Nat)
    (hs : s.length = 8) (hs' : s'.length = 8) :
    ∃ t t', utf8Case1 c s = some t ∧ utf8Case1 c s' = some t' ∧
      t.length = 8 ∧ t'.length = 8 ∧
      (∀ j : Nat, j < 1 → t.get? j = t'.get? j) ∧
      (∀ j : Nat, 1 ≤ j → t.get? j = s.get? j) ∧
      (∀ j : Nat, 1 ≤ j → t'.get? j = s'.get? j) := by
  refine ⟨s.set 0 (byte c), s'.set 0 (byte c), ?_, ?_,
    by simp [hs], by simp [hs'], ?_, ?_, ?_⟩
  · simp only [utf8Case1, wr, hs]
    rw [if_pos (by omega)]
  · simp only [utf8Case1, wr, hs']
    rw [if_pos (by omega)]
  · intro j hj
    have hj0 : j = 0 := by omega
    subst hj0
    simp only [List.get?_eq_getElem?]
    rw [List.getElem?_set_self (by omega), List.getElem?_set_self (by omega)]
  · intro j hj
    simp only [List.get?_eq_getElem?]
    rw [List.getElem?_set_ne (by omega)]
  · intro j hj
    simp only [List.get?_eq_getElem?]
    rw [List.getElem?_set_ne (by omega)]

/-- `case 2` writes indices below 2 with values depending only on `c`
and inherits every index from 2 up. -/
theorem utf8Case2_agree (c : Int) (s s' : List Nat)
    (hs : s.length = 8) (hs' : s'.length = 8) :
    ∃ t t', utf8Case2 c s = some t ∧ utf8Case2 c s' = some t' ∧
      t.length = 8 ∧ t'.length = 8 ∧
      (∀ j : Nat, j < 2 → t.get? j = t'.get? j) ∧
      (∀ j : Nat, 2 ≤ j → t.get? j = s.get? j) ∧
      (∀ j : Nat, 2 ≤ j → t'.get? j = s'.get? j) := by
  have hw : wr s 1 (contByte c) = some (s.set 1 (contByte c)) := by
    simp only [wr, hs]
    rw [if_pos (by omega)]
  have hw' : wr s' 1 (contByte c) = some (s'.set 1 (contByte c)) := by
    simp only [wr, hs']
    rw [if_pos (by omega)]
  obtain ⟨t, t', ht, ht', htl, htl', hag, hin, hin'⟩ :=
    utf8Case1_agree (Int.lor (c >>> (6 : Nat)) 0xc0)
      (s.set 1 (contByte c)) (s'.set 1 (contByte c))
      (by simp [hs]) (by simp [hs'])
  refine ⟨t, t', ?_, ?_, htl, htl', ?_, ?_, ?_⟩
  · simp only [utf8Case2, hw, Option.some_bind]
    exact ht
  · simp only [utf8Case2, hw', Option.some_bind]
    exact ht'
  · intro j hj
    by_cases hjlt : j < 1
    · exact hag j hjlt
    · have hje : j = 1 := by omega
      subst hje
      rw [hin 1 (by omega), hin' 1 (by omega)]
      simp only [List.get?_eq_getElem?]
      rw [List.getElem?_set_self (by omega),
        List.getElem?_set_self (by omega)]
  · intro j hj
    rw [hin j (by omega)]
    simp only [List.get?_eq_getElem?]
    rw [List.getElem?_set_ne (by omega)]
  · intro j hj
    rw [hin' j (by omega)]
    simp only [List.get?_eq_getElem?]
    rw [List.getElem?_set_ne (by omega)]

/-- `case 3` writes indices below 3 with values depending only on `c`
and inherits every index from 3 up. -/
theorem utf8Case3_agree (c : Int) (s s' : List Nat)
    (hs : s.length = 8) (hs' : s'.length = 8) :
    ∃ t t', utf8Case3 c s = some t ∧ utf8Case3 c s' = some t' ∧
      t.length = 8 ∧ t'.length = 8 ∧
      (∀ j : Nat, j < 3 → t.get? j = t'.get? j) ∧
      (∀ j : Nat, 3 ≤ j → t.get? j = s.get? j) ∧
      (∀ j : Nat, 3 ≤ j → t'.get? j = s'.get? j) := by
  have hw : wr s 2 (contByte c) = some (s.set 2 (contByte c)) := by
    simp only [wr, hs]
    rw [if_pos (by omega)]
  have hw' : wr s' 2 (contByte c) = some (s'.set 2 (contByte c)) := by
    simp only [wr, hs']
    rw [if_pos (by omega)]
  obtain ⟨t, t', ht, ht', htl, htl', hag, hin, hin'⟩ :=
    utf8Case2_agree (Int.lor (c >>> (6 : Nat)) 0x800)
      (s.set 2 (contByte c)) (s'.set 2 (contByte c))
      (by simp [hs]) (by simp [hs'])
  refine ⟨t, t', ?_, ?_, htl, htl', ?_, ?_, ?_⟩
  · simp only [utf8Case3, hw, Option.some_bind]
    exact ht
  · simp only [utf8Case3, hw', Option.some_bind]
    exact ht'
  · intro j hj
    by_cases hjlt : j < 2
    · exact hag j hjlt
    · have hje : j = 2 := by omega
      subst hje
      rw [hin 2 (by omega), hin' 2 (by omega)]
      simp only [List.get?_eq_getElem?]
      rw [List.getElem?_set_self (by omega),
        List.getElem?_set_self (by omega)]
  · intro j hj
    rw [hin j (by omega)]
    simp only [List.get?_eq_getElem?]
    rw [List.getElem?_set_ne (by omega)]
  · intro j hj
    rw [hin' j (by omega)]
    simp only [List.get?_eq_getElem?]
    rw [List.getElem?_set_ne (by omega)]

/-- `case 4` writes indices below 4 with values depending only on `c`
and inherits every index from 4 up. -/
theorem utf8Case4_agree (c : Int) (s s' : List Nat)
    (hs : s.length = 8) (hs' : s'.length = 8) :
    ∃ t t', utf8Case4 c s = some t ∧ utf8Case4 c s' = some t' ∧
      t.length = 8 ∧ t'.length = 8 ∧
      (∀ j : Nat, j < 4 → t.get? j = t'.get? j) ∧
      (∀ j : Nat, 4 ≤ j → t.get? j = s.get? j) ∧
      (∀ j : Nat, 4 ≤ j → t'.get? j = s'.get? j) := by
  have hw : wr s 3 (contByte c) = some (s.set 3 (contByte c)) := by
    simp only [wr, hs]
    rw [if_pos (by omega)]
  have hw' : wr s' 3 (contByte c) = some (s'.set 3 (contByte c)) := by
    simp only [wr, hs']
    rw [if_pos (by omega)]
  obtain ⟨t, t', ht, ht', htl, htl', hag, hin, hin'⟩ :=
    utf8Case3_agree (Int.lor (c >>> (6 : Nat)) 0x10000)
      (s.set 3 (contByte c)) (s'.set 3 (contByte c))
      (by simp [hs]) (by simp [hs'])
  refine ⟨t, t', ?_, ?_, htl, htl', ?_, ?_, ?_⟩
  · simp only [utf8Case4, hw, Option.some_bind]
    exact ht
  · simp only [utf8Case4, hw', Option.some_bind]
    exact ht'
  · intro j hj
    by_cases hjlt : j < 3
    · exact hag j hjlt
    · have hje : j = 3 := by omega
      subst hje
      rw [hin 3 (by omega), hin' 3 (by omega)]
      simp only [List.get?_eq_getElem?]
      rw [List.getElem?_set_self (by omega),
        List.getElem?_set_self (by omega)]
  · intro j hj
    rw [hin j (by omega)]
    simp only [List.get?_eq_getElem?]
    rw [List.getElem?_set_ne (by omega)]
  · intro j hj
    rw [hin' j (by omega)]
    simp only [List.get?_eq_getElem?]
    rw [List.getElem?_set_ne (by omega)]

/-- `case 5` writes indices below 5 with values depending only on `c`
and inherits every index from 5 up. -/
theorem utf8Case5_agree (c : Int) (s s' : List Nat)
    (hs : s.length = 8) (hs' : s'.length = 8) :
    ∃ t t', utf8Case5 c s = some t ∧ utf8Case5 c s' = some t' ∧
      t.length = 8 ∧ t'.length = 8 ∧
      (∀ j : Nat, j < 5 → t.get? j = t'.get? j) ∧
      (∀ j : Nat, 5 ≤ j → t.get? j = s.get? j) ∧
      (∀ j : Nat, 5 ≤ j → t'.get? j = s'.get? j) := by
  have hw : wr s 4 (contByte c) = some (s.set 4 (contByte c)) := by
    simp only [wr, hs]
    rw [if_pos (by omega)]
  have hw' : wr s' 4 (contByte c) = some (s'.set 4 (contByte c)) := by
    simp only [wr, hs']
    rw [if_pos (by omega)]
  obtain ⟨t, t', ht, ht', htl, htl', hag, hin, hin'⟩ :=
    utf8Case4_agree (Int.lor (c >>> (6 : Nat)) 0x200000)
      (s.set 4 (contByte c)) (s'.set 4 (contByte c))
      (by simp [hs]) (by simp [hs'])
  refine ⟨t, t', ?_, ?_, htl, htl', ?_, ?_, ?_⟩
  · simp only [utf8Case5, hw, Option.some_bind]
    exact ht
  · simp only [utf8Case5, hw', Option.some_bind]
    exact ht'
  · intro j hj
    by_cases hjlt : j < 4
    · exact hag j hjlt
    · have hje : j = 4 := by omega
      subst hje
      rw [hin 4 (by omega), hin' 4 (by omega)]
      simp only [List.get?_eq_getElem?]
      rw [List.getElem?_set_self (by omega),
        List.getElem?_set_self (by omega)]
  · intro j hj
    rw [hin j (by omega)]
    simp only [List.get?_eq_getElem?]
    rw [List.getElem?_set_ne (by omega)]
  · intro j hj
    rw [hin' j (by omega)]
    simp only [List.get?_eq_getElem?]
    rw [List.getElem?_set_ne (by omega)]

/-- `case 6` writes indices below 6 with values depending only on `c`
and inherits every index from 6 up. -/
theorem utf8Case6_agree (c : Int) (s s' : List Nat)
    (hs : s.length = 8) (hs' : s'.length = 8) :
    ∃ t t', utf8Case6 c s = some t ∧ utf8Case6 c s' = some t' ∧
      t.length = 8 ∧ t'.length = 8 ∧
      (∀ j : Nat, j < 6 → t.get? j = t'.get? j) ∧
      (∀ j : Nat, 6 ≤ j → t.get? j = s.get? j) ∧
      (∀ j : Nat, 6 ≤ j → t'.get? j = s'.get? j) := by
  have hw : wr s 5 (contByte c) = some (s.set 5 (contByte c)) := by
    simp only [wr, hs]
    rw [if_pos (by omega)]
  have hw' : wr s' 5 (contByte c) = some (s'.set 5 (contByte c)) := by
    simp only [wr, hs']
    rw [if_pos (by omega)]
  obtain ⟨t, t', ht, ht', htl, htl', hag, hin, hin'⟩ :=
    utf8Case5_agree (Int.lor (c >>> (6 : Nat)) 0x4000000)
      (s.set 5 (contByte c)) (s'.set 5 (contByte c))
      (by simp [hs]) (by simp [hs'])
  refine ⟨t, t', ?_, ?_, htl, htl', ?_, ?_, ?_⟩
  · simp only [utf8Case6, hw, Option.some_bind]
    exact ht
  · simp only [utf8Case6, hw', Option.some_bind]
    exact ht'
  · intro j hj
    by_cases hjlt : j < 5
    · exact hag j hjlt
    · have hje : j = 5 := by omega
      subst hje
      rw [hin 5 (by omega), hin' 5 (by omega)]
      simp only [List.get?_eq_getElem?]
      rw [List.getElem?_set_self (by omega),
        List.getElem?_set_self (by omega)]
  · intro j hj
    rw [hin j (by omega)]
    simp only [List.get?_eq_getElem?]
    rw [List.getElem?_set_ne (by omega)]
  · intro j hj
    rw [hin' j (by omega)]
    simp only [List.get?_eq_getElem?]
    rw [List.getElem?_set_ne (by omega)]

/-- Two runs of `utf8` on the same int32 codepoint but arbitrary (and
possibly different) initial array contents both succeed and agree on
every index up to and including `n`: the encoding bytes and the NUL
terminator are a function of the codepoint alone. -/
theorem utf8Init_agree (c : Int) (init init' : List Nat)
    (hl : init.length = 8) (hl' : init'.length = 8)
    (h1 : -2147483648 ≤ c) (h2 : c < 2147483648) :
    ∃ t t', utf8Init init c = some t ∧ utf8Init init' c = some t' ∧
      ∀ j : Nat, j ≤ utf8Len c → t.get? j = t'.get? j := by
  have hrange : 1 ≤ utf8Len c ∧ utf8Len c ≤ 6 := by
    simp only [utf8Len]
    split_ifs <;> omega
  have hcase : utf8Len c = 1 ∨ utf8Len c = 2 ∨ utf8Len c = 3 ∨
      utf8Len c = 4 ∨ utf8Len c = 5 ∨ utf8Len c = 6 := by omega
  have hwi : wr init (utf8Len c) 0 = some (init.set (utf8Len c) 0) := by
    simp only [wr, hl]
    rw [if_pos (by omega)]
  have hwi' : wr init' (utf8Len c) 0 =
      some (init'.set (utf8Len c) 0) := by
    simp only [wr, hl']
    rw [if_pos (by omega)]
  rcases hcase with h | h | h | h | h | h
  · obtain ⟨t, t', ht, ht', htl, htl', hag, hin, hin'⟩ :=
      utf8Case1_agree c (init.set 1 0) (init'.set 1 0)
        (by simp [hl]) (by simp [hl'])
    refine ⟨t, t', ?_, ?_, ?_⟩
    · rw [h] at hwi
      simp only [utf8Init, h, hwi, Option.some_bind]
      exact ht
    · rw [h] at hwi'
      simp only [utf8Init, h, hwi', Option.some_bind]
      exact ht'
    · intro j hj
      rw [h] at hj
      by_cases hjlt : j < 1
      · exact hag j hjlt
      · have hje : j = 1 := by omega
        subst hje
        rw [hin 1 (by omega), hin' 1 (by omega)]
        simp only [List.get?_eq_getElem?]
        rw [List.getElem?_set_self (by omega),
          List.getElem?_set_self (by omega)]
  · obtain ⟨t, t', ht, ht', htl, htl', hag, hin, hin'⟩ :=
      utf8Case2_agree c (init.set 2 0) (init'.set 2 0)
        (by simp [hl]) (by simp [hl'])
    refine ⟨t, t', ?_, ?_, ?_⟩
    · rw [h] at hwi
      simp only [utf8Init, h, hwi, Option.some_bind]
      exact ht
    · rw [h] at hwi'
      simp only [utf8Init, h, hwi', Option.some_bind]
      exact ht'
    · intro j hj
      rw [h] at hj
      by_cases hjlt : j < 2
      · exact hag j hjlt
      · have hje : j = 2 := by omega
        subst hje
        rw [hin 2 (by omega), hin' 2 (by omega)]
        simp only [List.get?_eq_getElem?]
        rw [List.getElem?_set_self (by omega),
          List.getElem?_set_self (by omega)]
  · obtain ⟨t, t', ht, ht', htl, htl', hag, hin, hin'⟩ :=
      utf8Case3_agree c (init.set 3 0) (init'.set 3 0)
        (by simp [hl]) (by simp [hl'])
    refine ⟨t, t', ?_, ?_, ?_⟩
    · rw [h] at hwi
      simp only [utf8Init, h, hwi, Option.some_bind]
      exact ht
    · rw [h] at hwi'
      simp only [utf8Init, h, hwi', Option.some_bind]
      exact ht'
    · intro j hj
      rw [h] at hj
      by_cases hjlt : j < 3
      · exact hag j hjlt
      · have hje : j = 3 := by omega
        subst hje
        rw [hin 3 (by omega), hin' 3 (by omega)]
        simp only [List.get?_eq_getElem?]
        rw [List.getElem?_set_self (by omega),
          List.getElem?_set_self (by omega)]
  · obtain ⟨t, t', ht, ht', htl, htl', hag, hin, hin'⟩ :=
      utf8Case4_agree c (init.set 4 0) (init'.set 4 0)
        (by simp [hl]) (by simp [hl'])
    refine ⟨t, t', ?_, ?_, ?_⟩
    · rw [h] at hwi
      simp only [utf8Init, h, hwi, Option.some_bind]
      exact ht
    · rw [h] at hwi'
      simp only [utf8Init, h, hwi', Option.some_bind]
      exact ht'
    · intro j hj
      rw [h] at hj
      by_cases hjlt : j < 4
      · exact hag j hjlt
      · have hje : j = 4 := by omega
        subst hje
        rw [hin 4 (by omega), hin' 4 (by omega)]
        simp only [List.get?_eq_getElem?]
        rw [List.getElem?_set_self (by omega),
          List.getElem?_set_self (by omega)]
  · obtain ⟨t, t', ht, ht', htl, htl', hag, hin, hin'⟩ :=
      utf8Case5_agree c (init.set 5 0) (init'.set 5 0)
        (by simp [hl]) (by simp [hl'])
    refine ⟨t, t', ?_, ?_, ?_⟩
    · rw [h] at hwi
      simp only [utf8Init, h, hwi, Option.some_bind]
      exact ht
    · rw [h] at hwi'
      simp only [utf8Init, h, hwi', Option.some_bind]
      exact ht'
    · intro j hj
      rw [h] at hj
      by_cases hjlt : j < 5
      · exact hag j hjlt
      · have hje : j = 5 := by omega
        subst hje
        rw [hin 5 (by omega), hin' 5 (by omega)]
        simp only [List.get?_eq_getElem?]
        rw [List.getElem?_set_self (by omega),
          List.getElem?_set_self (by omega)]
  · obtain ⟨t, t', ht, ht', htl, htl', hag, hin, hin'⟩ :=
      utf8Case6_agree c (init.set 6 0) (init'.set 6 0)
        (by simp [hl]) (by simp [hl'])
    refine ⟨t, t', ?_, ?_, ?_⟩
    · rw [h] at hwi
      simp only [utf8Init, h, hwi, Option.some_bind]
      exact ht
    · rw [h] at hwi'
      simp only [utf8Init, h, hwi', Option.some_bind]
      exact ht'
    · intro j hj
      rw [h] at hj
      by_cases hjlt : j < 6
      · exact hag j hjlt
      · have hje : j = 6 := by omega
        subst hje
        rw [hin 6 (by omega), hin' 6 (by omega)]
        simp only [List.get?_eq_getElem?]
        rw [List.getElem?_set_self (by omega),
          List.getElem?_set_self (by omega)]

/-- C4 counterexample: two calls of `utf8` with the same codepoint do
NOT always return equal 8-byte arrays. The local array is
default-initialized, index 7 is never written for a one-byte codepoint
(nor for any other), so the returned array keeps indeterminate tail
bytes: running the code at codepoint `0x41` from initial contents all
zero and from initial contents ending in `1` yields arrays differing at
index 7. -/
theorem utf8_determinism_claim_false :
    ¬ (∀ init init' : List Nat, init.length = 8 → init'.length = 8 →
        utf8Init init 0x41 = utf8Init init' 0x41) := by
  intro h
  exact absurd
    (h (List.replicate 8 0) [0, 0, 0, 0, 0, 0, 0, 1] (by decide) (by decide))
    (by decide)

/-- C4 (amended): the header's functions are deterministic in everything
they compute: `contrastingColor` and the icon predicates return equal
results on equal inputs, and two calls of `utf8` with the same int32
codepoint agree on every meaningful byte — the encoding bytes and the
NUL terminator at indices `0..n` — whatever the indeterminate initial
contents of the default-initialized array were; only the unwritten tail
bytes past index `n` may differ between calls. No call reads or writes
shared or global state. -/
theorem functions_deterministic (c c' : Int) (init init' : List Nat)
    (col col' : Color) (hc : c = c') (hcol : col = col')
    (hl : init.length = 8) (hl' : init'.length = 8)
    (h1 : -2147483648 ≤ c) (h2 : c < 2147483648) :
    (∃ t t', utf8Init init c = some t ∧ utf8Init init' c' = some t' ∧
      ∀ j : Nat, j ≤ utf8Len c → t.get? j = t'.get? j) ∧
      col.contrastingColor = col'.contrastingColor ∧
      nvgIsImageIcon c = nvgIsImageIcon c' ∧
      nvgIsFontIcon c = nvgIsFontIcon c' := by
  subst hc
  subst hcol
  exact ⟨utf8Init_agree c init init' hl hl' h1 h2, rfl, rfl, rfl⟩

/-- C4 witness: instantiated at codepoint `0x41`, two different initial
array states, and the default color. -/
theorem functions_deterministic_witness :
    ((0x41 : Int) = 0x41 ∧ Color.defaultColor = Color.defaultColor ∧
      (List.replicate 8 0 : List Nat).length = 8 ∧
      ([0, 0, 0, 0, 0, 0, 0, 1] : List Nat).length = 8 ∧
      -2147483648 ≤ (0x41 : Int) ∧ (0x41 : Int) < 2147483648) ∧
      ((∃ t t', utf8Init (List.replicate 8 0) 0x41 = some t ∧
        utf8Init [0, 0, 0, 0, 0, 0, 0, 1] 0x41 = some t' ∧
        ∀ j : Nat, j ≤ utf8Len 0x41 → t.get? j = t'.get? j) ∧
        Color.defaultColor.contrastingColor =
          Color.defaultColor.contrastingColor ∧
        nvgIsImageIcon 0x41 = nvgIsImageIcon 0x41 ∧
        nvgIsFontIcon 0x41 = nvgIsFontIcon 0x41) :=
  ⟨⟨rfl, rfl, by decide, by decide, by decide, by decide⟩,
    functions_deterministic 0x41 0x41 (List.replicate 8 0)
      [0, 0, 0, 0, 0, 0, 0, 1] Color.defaultColor Color.defaultColor
      rfl rfl (by decide) (by decide) (by decide) (by decide)⟩

end nanogui

